import Mathlib

/-!
Shallow embedding of the DNS message codec in `src/main.rs` (a small Rust DNS
client).  Bytes are natural numbers in `[0, 256)`, byte buffers are `List Nat`,
and a Rust `String` is the list of its UTF-8 bytes.  The Rust code defines no
error type: every failure is a panic (`unwrap`, `expect`, an out-of-range
`VecDeque::drain`).  A panic aborts decoding of the whole message, so every
panic is modelled as `none`; `none` is the only failure mode of the embedded
decoder, exactly as panicking is the only failure mode of the Rust decoder.
The `HashMap<u16, String>` of previously decoded names is modelled as an
association list searched front-to-back, with insertion by prepending (which
has the same lookup semantics as `HashMap::insert`).
-/

/-- Rust `is_compressed`: the first two bits of the length byte are both 1
(checked by ANDing with `0b11000000`). -/
def is_compressed (byte : Nat) : Bool := byte &&& 192 == 192

/-- `u16::to_be_bytes`: big-endian byte pair of a 16-bit value.  The `% 256`
keeps the definition total on `Nat`; for `v < 65536` it is the identity on the
high byte. -/
def toBe16 (v : Nat) : List Nat := [v / 256 % 256, v % 256]

/-- `u16::from_be_bytes` on two bytes. -/
def fromBe16 (hi lo : Nat) : Nat := hi * 256 + lo

/-- `HashMap::get` on the association-list model of `decoded_names`. -/
def lookupName : List (Nat × List Nat) → Nat → Option (List Nat)
  | [], _ => none
  | (k, v) :: rest, key => if k = key then some v else lookupName rest key

/-- `isCont b` holds when `b` is a UTF-8 continuation byte (`0x80..=0xBF`). -/
def isCont (b : Nat) : Bool := 128 ≤ b && b ≤ 191

/-- Allowed range of the first byte after a 3-byte UTF-8 lead byte `b`
(excludes overlong forms after `0xE0` and surrogates after `0xED`). -/
def utf8Second3 (b c1 : Nat) : Bool :=
  if b = 224 then 160 ≤ c1 && c1 ≤ 191
  else if b = 237 then 128 ≤ c1 && c1 ≤ 159
  else isCont c1

/-- Allowed range of the first byte after a 4-byte UTF-8 lead byte `b`
(excludes overlong forms after `0xF0` and values above `U+10FFFF` after
`0xF4`). -/
def utf8Second4 (b c1 : Nat) : Bool :=
  if b = 240 then 144 ≤ c1 && c1 ≤ 191
  else if b = 244 then 128 ≤ c1 && c1 ≤ 143
  else isCont c1

/-- The validity check performed by Rust `String::from_utf8`: strict UTF-8
(rejecting overlong encodings, surrogates and values above `U+10FFFF`).
`decode_name` panics via `.expect("Found invalid UTF-8")` when it fails. -/
def validUtf8 : List Nat → Bool
  | [] => true
  | b :: rest =>
    if b ≤ 127 then validUtf8 rest
    else if b ≤ 193 then false
    else if b ≤ 223 then
      match rest with
      | c1 :: rest2 => isCont c1 && validUtf8 rest2
      | [] => false
    else if b ≤ 239 then
      match rest with
      | c1 :: c2 :: rest2 => utf8Second3 b c1 && isCont c2 && validUtf8 rest2
      | _ => false
    else if b ≤ 244 then
      match rest with
      | c1 :: c2 :: c3 :: rest2 =>
        utf8Second4 b c1 && isCont c2 && isCont c3 && validUtf8 rest2
      | _ => false
    else false

/-- Rust `name.split('.')`: split a byte string at every `'.'` (byte 46).
Like Rust's `split`, the result is always non-empty and splitting the empty
string yields `[[]]`. -/
def splitOnDot : List Nat → List (List Nat)
  | [] => [[]]
  | b :: rest =>
    if b = 46 then [] :: splitOnDot rest
    else
      match splitOnDot rest with
      | [] => [[b]]
      | p :: ps => (b :: p) :: ps

/-- Rust `name_parts.join(".")`: interleave byte 46 between the parts. -/
def joinDots : List (List Nat) → List Nat
  | [] => []
  | [p] => p
  | p :: q :: ps => p ++ 46 :: joinDots (q :: ps)

structure DNSHeader where
  id : Nat
  flags : Nat
  num_questions : Nat
  num_answers : Nat
  num_authorities : Nat
  num_additionals : Nat
deriving DecidableEq

/-- Rust `DNSHeader::to_bytes`: the six 16-bit fields, big-endian, in order. -/
def DNSHeader.to_bytes (h : DNSHeader) : List Nat :=
  toBe16 h.id ++ toBe16 h.flags ++ toBe16 h.num_questions ++ toBe16 h.num_answers ++
    toBe16 h.num_authorities ++ toBe16 h.num_additionals

/-- Rust `DNSHeader::from_buffer`: `buffer.drain(0..12)` (panics when fewer
than 12 bytes remain) read as six big-endian `u16`s; `idx` advances by 12. -/
def DNSHeader.from_buffer (buffer : List Nat) (idx : Nat) :
    Option (DNSHeader × List Nat × Nat) :=
  match buffer with
  | b0 :: b1 :: b2 :: b3 :: b4 :: b5 :: b6 :: b7 :: b8 :: b9 :: b10 :: b11 :: rest =>
    some (⟨fromBe16 b0 b1, fromBe16 b2 b3, fromBe16 b4 b5, fromBe16 b6 b7,
           fromBe16 b8 b9, fromBe16 b10 b11⟩, rest, idx + 12)
  | _ => none

structure DNSQuestion where
  name : List Nat
  type_ : Nat
  /-- Rust field `class` (a Lean keyword). -/
  class_ : Nat
deriving DecidableEq

structure DNSRecord where
  name : List Nat
  type_ : Nat
  /-- Rust field `class` (a Lean keyword). -/
  class_ : Nat
  ttl : Nat
  data : List Nat
deriving DecidableEq

structure DNSPacket where
  header : DNSHeader
  questions : List DNSQuestion
  answers : List DNSRecord
  authorities : List DNSRecord
  additionals : List DNSRecord
deriving DecidableEq

/-- The label-reading loop of Rust `decode_name` (the `loop { ... }` in the
non-compressed branch).  Each iteration: `buffer.drain(0..len)` (panics when
fewer than `len` bytes remain), `String::from_utf8(..).expect(..)` (panics on
invalid UTF-8), push the part, advance `idx` by `len`, `pop_front().unwrap()`
the next length byte (panics on an empty buffer), advance `idx` by 1, and stop
when that byte is 0.  The loop terminates because every iteration removes at
least one byte from the buffer, so calling it with fuel `buffer.length + 1`
never exhausts the fuel; the added fuel argument only makes the recursion
structural. -/
def decodeLabels :
    Nat → List Nat → Nat → Nat → List (List Nat) →
      Option (List (List Nat) × List Nat × Nat)
  | 0, _, _, _, _ => none
  | fuel + 1, buffer, idx, len, parts =>
    if buffer.length < len then none
    else
      let part := buffer.take len
      if validUtf8 part then
        match buffer.drop len with
        | [] => none
        | l :: rest =>
          if l = 0 then some (parts ++ [part], rest, idx + len + 1)
          else decodeLabels fuel rest (idx + len + 1) l (parts ++ [part])
      else none

/-- Rust `decode_name`.  Records the starting offset, pops the first length
byte (panic on an empty buffer).  If its top two bits are set, the remaining
6 bits and the next byte form a big-endian pointer looked up in
`decoded_names` (`.get(..).unwrap()` panics when absent); the looked-up name
is returned and nothing is inserted.  Otherwise the label loop runs and the
joined name is inserted under the starting offset.  Returns the name, the
remaining buffer, the advanced `idx` and the updated table. -/
def decode_name (buffer : List Nat) (idx : Nat)
    (decoded_names : List (Nat × List Nat)) :
    Option (List Nat × List Nat × Nat × List (Nat × List Nat)) :=
  let name_idx := idx
  match buffer with
  | [] => none
  | len :: rest =>
    if is_compressed len then
      match rest with
      | [] => none
      | b :: rest2 =>
        let pointer := fromBe16 (len &&& 63) b
        match lookupName decoded_names pointer with
        | none => none
        | some nm => some (nm, rest2, idx + 2, decoded_names)
    else
      match decodeLabels (rest.length + 1) rest (idx + 1) len [] with
      | none => none
      | some (parts, rest2, idx2) =>
        let name := joinDots parts
        some (name, rest2, idx2, (name_idx, name) :: decoded_names)

/-- Rust `encode_dns_name`: split on `'.'`, and for each part push
`part.len() as u8` (hence the `% 256`) followed by the part's bytes; finally
push a terminating 0.  No validation of any kind is performed. -/
def encode_dns_name (name : List Nat) : List Nat :=
  ((splitOnDot name).foldl (fun bytes part => bytes ++ part.length % 256 :: part) []) ++ [0]

/-- Rust `DNSQuestion::to_bytes`: encoded name, then type and class as
big-endian `u16`. -/
def DNSQuestion.to_bytes (q : DNSQuestion) : List Nat :=
  encode_dns_name q.name ++ toBe16 q.type_ ++ toBe16 q.class_

/-- Rust `DNSQuestion::from_buffer`: decode the name, then `drain(0..4)`
(panics when fewer than 4 bytes remain) read as type and class. -/
def DNSQuestion.from_buffer (buffer : List Nat) (idx : Nat)
    (decoded_names : List (Nat × List Nat)) :
    Option (DNSQuestion × List Nat × Nat × List (Nat × List Nat)) :=
  match decode_name buffer idx decoded_names with
  | none => none
  | some (name, buf, idx2, names2) =>
    match buf with
    | t1 :: t2 :: c1 :: c2 :: rest =>
      some (⟨name, fromBe16 t1 t2, fromBe16 c1 c2⟩, rest, idx2 + 4, names2)
    | _ => none

/-- Rust `DNSRecord::from_buffer`: decode the name, then ten
`pop_front().unwrap()` bytes (type, class, ttl, data length; each pop panics
on an empty buffer), then `drain(0..data_len)` bytes of opaque data (panics
when fewer remain). -/
def DNSRecord.from_buffer (buffer : List Nat) (idx : Nat)
    (decoded_names : List (Nat × List Nat)) :
    Option (DNSRecord × List Nat × Nat × List (Nat × List Nat)) :=
  match decode_name buffer idx decoded_names with
  | none => none
  | some (name, buf, idx2, names2) =>
    match buf with
    | t1 :: t2 :: c1 :: c2 :: l1 :: l2 :: l3 :: l4 :: d1 :: d2 :: rest =>
      let data_len := fromBe16 d1 d2
      if rest.length < data_len then none
      else
        some (⟨name, fromBe16 t1 t2, fromBe16 c1 c2,
               ((l1 * 256 + l2) * 256 + l3) * 256 + l4, rest.take data_len⟩,
              rest.drop data_len, idx2 + 10 + data_len, names2)
    | _ => none

/-- The `for _ in 0..header.num_questions` loop of `DNSPacket::from_buffer`,
threading the buffer, `idx` and the `decoded_names` table through successive
`DNSQuestion::from_buffer` calls. -/
def decodeQuestions :
    Nat → List Nat → Nat → List (Nat × List Nat) →
      Option (List DNSQuestion × List Nat × Nat × List (Nat × List Nat))
  | 0, buf, idx, names => some ([], buf, idx, names)
  | n + 1, buf, idx, names =>
    match DNSQuestion.from_buffer buf idx names with
    | none => none
    | some (q, buf2, idx2, names2) =>
      match decodeQuestions n buf2 idx2 names2 with
      | none => none
      | some (qs, buf3, idx3, names3) => some (q :: qs, buf3, idx3, names3)

/-- One record-section loop of `DNSPacket::from_buffer` (used for answers,
authorities and additionals alike), threading state through successive
`DNSRecord::from_buffer` calls. -/
def decodeRecords :
    Nat → List Nat → Nat → List (Nat × List Nat) →
      Option (List DNSRecord × List Nat × Nat × List (Nat × List Nat))
  | 0, buf, idx, names => some ([], buf, idx, names)
  | n + 1, buf, idx, names =>
    match DNSRecord.from_buffer buf idx names with
    | none => none
    | some (r, buf2, idx2, names2) =>
      match decodeRecords n buf2 idx2 names2 with
      | none => none
      | some (rs, buf3, idx3, names3) => some (r :: rs, buf3, idx3, names3)

/-- Rust `DNSPacket::from_buffer`: decode the header starting at `idx = 0`
with an empty `decoded_names` table, then `num_questions` questions, then
`num_answers`, `num_authorities` and `num_additionals` records, all sharing
one buffer, one `idx` and one table.  Any panic anywhere (modelled `none`)
aborts the whole decode; no partial packet is ever produced. -/
def DNSPacket.from_buffer (buffer : List Nat) : Option DNSPacket :=
  match DNSHeader.from_buffer buffer 0 with
  | none => none
  | some (header, buf1, idx1) =>
    match decodeQuestions header.num_questions buf1 idx1 [] with
    | none => none
    | some (questions, buf2, idx2, names2) =>
      match decodeRecords header.num_answers buf2 idx2 names2 with
      | none => none
      | some (answers, buf3, idx3, names3) =>
        match decodeRecords header.num_authorities buf3 idx3 names3 with
        | none => none
        | some (authorities, buf4, idx4, names4) =>
          match decodeRecords header.num_additionals buf4 idx4 names4 with
          | none => none
          | some (additionals, _, _, _) =>
            some ⟨header, questions, answers, authorities, additionals⟩

/-- Rust `build_query`.  The Rust function draws a random 16-bit transaction
id from `thread_rng`; the id is taken here as an explicit argument, which is
the only source of nondeterminism.  Flags are `1 << 8` (recursion desired
only), one question, zero records elsewhere, class hardcoded to 1. -/
def build_query (domain_name : List Nat) (record_type : Nat) (id : Nat) : List Nat :=
  let header : DNSHeader :=
    { id := id, flags := 256, num_questions := 1, num_answers := 0,
      num_authorities := 0, num_additionals := 0 }
  let question : DNSQuestion := { name := domain_name, type_ := record_type, class_ := 1 }
  header.to_bytes ++ question.to_bytes

/-- The byte string `"www.example.com"`. -/
def wwwExampleCom : List Nat :=
  [119, 119, 119, 46, 101, 120, 97, 109, 112, 108, 101, 46, 99, 111, 109]

/-- Validity of one label, as demanded by the round-trip claim: between 1 and
63 bytes, and valid UTF-8 (a Rust domain-name `String` necessarily splits into
valid UTF-8 labels, since `'.'` is an ASCII byte). -/
def validLabel (p : List Nat) : Bool :=
  decide (1 ≤ p.length) && decide (p.length ≤ 63) && validUtf8 p

/-- A valid domain name in the sense of the round-trip claim: every
dot-separated label is valid and the encoded form is at most 255 bytes. -/
def validDomainName (name : List Nat) : Bool :=
  (splitOnDot name).all validLabel && decide ((encode_dns_name name).length ≤ 255)

/-- Spine of the encoded-labels portion of `encode_dns_name`: for each part a
length byte (`len as u8`) followed by the part; used to restate the `foldl` in
`encode_dns_name` recursively for proofs. -/
def encodeParts : List (List Nat) → List Nat
  | [] => []
  | p :: ps => p.length % 256 :: (p ++ encodeParts ps)

/-- An 18-byte message whose only name is a compression pointer to offset 12
(its own start): header with `num_questions = 1`, then the pointer bytes
`C0 0C`, then type 1 and class 1. -/
def danglingPointerMsg : List Nat :=
  [0, 0, 0, 0, 0, 1, 0, 0, 0, 0, 0, 0] ++ [192, 12] ++ [0, 1, 0, 1]

/-- A 17-byte message: header with `num_questions = 1`, a root name (the
single byte 0), then type 1 and class 1. -/
def rootNameMsg : List Nat :=
  [0, 0, 0, 0, 0, 1, 0, 0, 0, 0, 0, 0] ++ [0] ++ [0, 1, 0, 1]

/-- A 27-byte message: header with `num_questions = 2`; question 1 has name
`"a"` (registered at offset 12), question 2 has name bytes
`01 62 C0 0C` — the label `"b"` followed by a compression pointer to
offset 12, as RFC 1035 compression produces. -/
def midPointerMsg : List Nat :=
  [0, 0, 0, 0, 0, 2, 0, 0, 0, 0, 0, 0] ++
    [1, 97, 0] ++ [0, 1, 0, 1] ++
    [1, 98, 192, 12] ++ [0, 1, 0, 1]

/-- A 31-byte message: header with `num_questions = 3`; question 1 has name
`"a"` at offset 12, question 2's name (at offset 19) is a pointer to
offset 12, and question 3's name is a pointer to offset 19 — a pointer
chain. -/
def pointerChainMsg : List Nat :=
  [0, 0, 0, 0, 0, 3, 0, 0, 0, 0, 0, 0] ++
    [1, 97, 0] ++ [0, 1, 0, 1] ++
    [192, 12] ++ [0, 1, 0, 1] ++
    [192, 19] ++ [0, 1, 0, 1]

/-! ### Helper lemmas -/

theorem validLabel_iff {p : List Nat} :
    validLabel p = true ↔ 1 ≤ p.length ∧ p.length ≤ 63 ∧ validUtf8 p = true := by
  simp [validLabel, and_assoc]

theorem is_compressed_eq_false {n : Nat} (h : n ≤ 63) : is_compressed n = false := by
  have h1 : n &&& 192 ≤ n := Nat.and_le_left
  simp only [is_compressed, beq_eq_false_iff_ne, ne_eq]
  omega

theorem encode_dns_name_eq (name : List Nat) :
    encode_dns_name name = encodeParts (splitOnDot name) ++ [0] := by
  have aux : ∀ (parts : List (List Nat)) (init : List Nat),
      parts.foldl (fun bytes part => bytes ++ part.length % 256 :: part) init =
        init ++ encodeParts parts := by
    intro parts
    induction parts with
    | nil => intro init; simp [encodeParts]
    | cons p ps ih => intro init; simp [encodeParts, ih, List.append_assoc]
  simp [encode_dns_name, aux]

theorem splitOnDot_ne_nil (l : List Nat) : splitOnDot l ≠ [] := by
  cases l with
  | nil => simp [splitOnDot]
  | cons b rest =>
    simp only [splitOnDot]
    split
    · simp
    · split <;> simp

theorem splitOnDot_exists_cons (l : List Nat) :
    ∃ p ps, splitOnDot l = p :: ps := by
  cases h : splitOnDot l with
  | nil => exact absurd h (splitOnDot_ne_nil l)
  | cons p ps => exact ⟨p, ps, rfl⟩

theorem joinDots_splitOnDot (l : List Nat) : joinDots (splitOnDot l) = l := by
  induction l with
  | nil => rfl
  | cons b rest ih =>
    obtain ⟨p, ps, hps⟩ := splitOnDot_exists_cons rest
    rw [hps] at ih
    by_cases hb : b = 46
    · subst hb
      simp only [splitOnDot, if_pos rfl, hps, joinDots]
      simpa using ih
    · simp only [splitOnDot, if_neg hb, hps]
      cases ps with
      | nil => simp only [joinDots] at ih ⊢; rw [ih]
      | cons q qs =>
        simp only [joinDots] at ih ⊢
        rw [List.cons_append, ih]

theorem length_encodeParts_ge (ps : List (List Nat)) :
    ps.length ≤ (encodeParts ps).length := by
  induction ps with
  | nil => simp [encodeParts]
  | cons p ps ih => simp only [encodeParts, List.length_cons, List.length_append]; omega

theorem decodeLabels_encodeParts (ps : List (List Nat)) :
    ∀ (fuel : Nat) (p : List Nat) (acc : List (List Nat)) (idx : Nat) (suffix : List Nat),
      ps.length + 1 ≤ fuel → validUtf8 p = true →
      (∀ q ∈ ps, validLabel q = true) →
      decodeLabels fuel (p ++ (encodeParts ps ++ 0 :: suffix)) idx p.length acc =
        some (acc ++ p :: ps, suffix, idx + p.length + 1 + (encodeParts ps).length) := by
  induction ps with
  | nil =>
    intro fuel p acc idx suffix hfuel hp _
    cases fuel with
    | zero => omega
    | succ f =>
      have hlen : ¬ (p ++ (0 :: suffix)).length < p.length := by
        simp [List.length_append]
      simp only [encodeParts, List.nil_append, decodeLabels, if_neg hlen,
        List.take_left, List.drop_left, hp, if_pos rfl, if_true]
      simp
  | cons q qs ih =>
    intro fuel p acc idx suffix hfuel hp hqs
    have hq := (validLabel_iff.mp (hqs q (by simp))).1
    have hq63 := (validLabel_iff.mp (hqs q (by simp))).2.1
    have hqutf := (validLabel_iff.mp (hqs q (by simp))).2.2
    have hqmod : q.length % 256 = q.length := Nat.mod_eq_of_lt (by omega)
    cases fuel with
    | zero => simp at hfuel
    | succ f =>
      have hbuf : p ++ (encodeParts (q :: qs) ++ 0 :: suffix) =
          p ++ (q.length :: (q ++ (encodeParts qs ++ 0 :: suffix))) := by
        simp [encodeParts, hqmod, List.append_assoc]
      rw [hbuf]
      have hlen : ¬ (p ++ (q.length :: (q ++ (encodeParts qs ++ 0 :: suffix)))).length
          < p.length := by
        simp [List.length_append]
      have hq0 : ¬ q.length = 0 := by omega
      simp only [decodeLabels, if_neg hlen, List.take_left, List.drop_left, hp, if_true,
        if_neg hq0]
      rw [ih f q (acc ++ [p]) (idx + p.length + 1) suffix (by simp at hfuel ⊢; omega)
        hqutf (fun r hr => hqs r (by simp [hr]))]
      have h1 : acc ++ [p] ++ q :: qs = acc ++ p :: q :: qs := by simp
      have h2 : idx + p.length + 1 + q.length + 1 + (encodeParts qs).length =
          idx + p.length + 1 + (encodeParts (q :: qs)).length := by
        simp only [encodeParts, List.length_cons, List.length_append]
        omega
      rw [h1, h2]

theorem decode_name_encode (name : List Nat) (suffix : List Nat) (idx : Nat)
    (table : List (Nat × List Nat)) (h : validDomainName name = true) :
    decode_name (encode_dns_name name ++ suffix) idx table =
      some (name, suffix, idx + (encode_dns_name name).length, (idx, name) :: table) := by
  obtain ⟨p, ps, hps⟩ := splitOnDot_exists_cons name
  have hall : ∀ q ∈ splitOnDot name, validLabel q = true := by
    have := (Bool.and_eq_true _ _).mp h
    exact fun q hq => List.all_eq_true.mp this.1 q hq
  have hp : validLabel p = true := hall p (by rw [hps]; simp)
  have hp1 := (validLabel_iff.mp hp).1
  have hp63 := (validLabel_iff.mp hp).2.1
  have hputf := (validLabel_iff.mp hp).2.2
  have hpmod : p.length % 256 = p.length := Nat.mod_eq_of_lt (by omega)
  have hbuf : encode_dns_name name ++ suffix =
      p.length :: (p ++ (encodeParts ps ++ 0 :: suffix)) := by
    rw [encode_dns_name_eq, hps]
    simp [encodeParts, hpmod, List.append_assoc]
  rw [hbuf]
  have hrest : ps.length + 1 ≤ (p ++ (encodeParts ps ++ 0 :: suffix)).length + 1 := by
    have := length_encodeParts_ge ps
    simp only [List.length_append, List.length_cons]
    omega
  simp only [decode_name, is_compressed_eq_false hp63, Bool.false_eq_true, if_false]
  rw [decodeLabels_encodeParts ps _ p [] (idx + 1) suffix hrest hputf
    (fun q hq => hall q (by rw [hps]; simp [hq]))]
  simp only [List.nil_append]
  have hname : joinDots (p :: ps) = name := by rw [← hps, joinDots_splitOnDot]
  have hlen2 : idx + 1 + p.length + 1 + (encodeParts ps).length =
      idx + (encode_dns_name name).length := by
    rw [encode_dns_name_eq, hps]
    simp only [encodeParts, List.length_append, List.length_cons, List.length_nil]
    omega
  rw [hname, hlen2]

theorem fromBe16_split {n : Nat} (h : n < 65536) :
    fromBe16 (n / 256 % 256) (n % 256) = n := by
  simp only [fromBe16]
  omega

/-! ### Claim theorems -/

/-- C1: for every valid domain name (each dot-separated label 1–63 bytes,
total encoded length at most 255) and every 16-bit record type, decoding the
bytes produced by `build_query` yields a message whose single question has the
original name (case preserved, since no byte is ever changed) and the original
type.  The transaction id is the injected random id. -/
theorem decode_build_query_roundtrip (domain_name : List Nat) (record_type id : Nat)
    (hname : validDomainName domain_name = true)
    (htype : record_type < 65536) (hid : id < 65536) :
    DNSPacket.from_buffer (build_query domain_name record_type id) =
      some ⟨⟨id, 256, 1, 0, 0, 0⟩, [⟨domain_name, record_type, 1⟩], [], [], []⟩ := by
  have hid' := fromBe16_split hid
  have hrt' := fromBe16_split htype
  have hq : build_query domain_name record_type id =
      id / 256 % 256 :: id % 256 :: 1 :: 0 :: 0 :: 1 :: 0 :: 0 :: 0 :: 0 :: 0 :: 0 ::
        (encode_dns_name domain_name ++
          (record_type / 256 % 256 :: record_type % 256 :: 0 :: 1 :: [])) := by
    simp [build_query, DNSHeader.to_bytes, DNSQuestion.to_bytes, toBe16]
  rw [hq]
  simp only [DNSPacket.from_buffer, DNSHeader.from_buffer, hid']
  norm_num [fromBe16]
  simp only [decodeQuestions, DNSQuestion.from_buffer]
  rw [decode_name_encode domain_name _ 12 [] hname]
  simp only [hrt']
  norm_num [fromBe16, decodeRecords]

/-- Witness for the round-trip theorem at `"www.example.com"`, type 1,
id 7. -/
theorem decode_build_query_roundtrip_witness :
    (validDomainName wwwExampleCom = true ∧ (1 : Nat) < 65536 ∧ (7 : Nat) < 65536) ∧
      DNSPacket.from_buffer (build_query wwwExampleCom 1 7) =
        some ⟨⟨7, 256, 1, 0, 0, 0⟩, [⟨wwwExampleCom, 1, 1⟩], [], [], []⟩ :=
  ⟨⟨by decide, by decide, by decide⟩,
    decode_build_query_roundtrip wwwExampleCom 1 7 (by decide) (by decide) (by decide)⟩

/-- C2: encoding the question for `"www.example.com"` with type 1 and class 1
produces exactly the bytes
`03 77 77 77 07 65 78 61 6d 70 6c 65 03 63 6f 6d 00 00 01 00 01`: each label
as a length byte followed by its raw bytes, a zero terminator, then type and
class as big-endian `u16`. -/
theorem question_to_bytes_www_example :
    DNSQuestion.to_bytes ⟨wwwExampleCom, 1, 1⟩ =
      [3, 119, 119, 119, 7, 101, 120, 97, 109, 112, 108, 101, 3, 99, 111, 109, 0,
        0, 1, 0, 1] := by
  decide

/-- C3 (code evidence): truncating the 33-byte query for `"www.example.com"`
(type 1) to its first 20 bytes makes `DNSPacket::from_buffer` hit an
out-of-range `drain` in the label loop — a panic, modelled `none`.  The code
defines no error type at all, so no `TruncatedInput` error can be produced;
aborting is its only behaviour on truncated input. -/
theorem truncated_query_decode_panics :
    DNSPacket.from_buffer ((build_query wwwExampleCom 1 0).take 20) = none := by
  decide

/-- C4 (code evidence): `encode_dns_name` performs no label-length check.  On
a single 64-byte label it succeeds, emitting length byte 64 followed by the 64
raw bytes and the terminator; no `LabelTooLong` error exists in the code. -/
theorem encode_label64_no_error :
    encode_dns_name (List.replicate 64 97) = 64 :: (List.replicate 64 97 ++ [0]) := by
  decide

/-- C5 (code evidence): on a message whose only name is a compression pointer
(to offset 12, with an empty compression table), `decode_name` panics on
`decoded_names.get(&pointer).unwrap()` — modelled `none`.  The code defines no
`DanglingPointer` error; the unwrap panic is its only behaviour. -/
theorem dangling_pointer_decode_panics :
    DNSPacket.from_buffer danglingPointerMsg = none := by
  decide

/-- C6 (code evidence): on a first length byte equal to 0 the label loop does
not terminate immediately: it pushes an empty label and then reads a second
length byte.  On name bytes `00 00` starting at offset 12 it consumes two
bytes (`idx` goes from 12 to 14) and records the label list `[""]` (joined to
the empty name), and a well-formed message containing a root name followed by
type and class therefore misparses and panics. -/
theorem root_name_decode_misparse :
    decode_name [0, 0] 12 [] = some ([], [], 14, [(12, [])]) ∧
      DNSPacket.from_buffer rootNameMsg = none :=
  ⟨by decide, by decide⟩

/-- C7 (code evidence): `is_compressed` is only consulted on the first length
byte of a name.  After a literal label, the byte `0xC0` of a compression
pointer is treated as a literal length of 192 and the loop tries to drain 192
bytes, panicking — both for the bare name decode (with offset 12 already
mapped to `"a"`) and for a full message whose second question name is
`"b"` followed by a pointer to offset 12. -/
theorem mid_name_pointer_not_followed :
    decode_name [1, 98, 192, 12, 0, 1, 0, 1] 19 [(12, [97])] = none ∧
      DNSPacket.from_buffer midPointerMsg = none :=
  ⟨by decide, by decide⟩

/-- C8 (code evidence): the compressed branch of `decode_name` returns the
looked-up name without inserting anything: decoding the pointer `C0 0C` at
offset 20 succeeds with name `"a"` but leaves the table exactly as it was (no
entry for 20), so a message with a pointer chain — a third name pointing at
the offset of a second name that was itself a pointer — panics on the missing
table entry. -/
theorem pointer_name_not_registered :
    decode_name [192, 12] 20 [(12, [97])] = some ([97], [], 22, [(12, [97])]) ∧
      DNSPacket.from_buffer pointerChainMsg = none :=
  ⟨by decide, by decide⟩

/-- C9: every query built by `build_query` starts with a 12-byte header that
decodes back to flags exactly `0x0100` (`256`, recursion desired only),
question count 1 and zero counts elsewhere, followed by exactly one encoded
question: the name, the given record type, and class 1 (Internet), big-endian. -/
theorem build_query_header_question (domain_name : List Nat) (record_type id : Nat)
    (hid : id < 65536) (_htype : record_type < 65536) :
    DNSHeader.from_buffer (build_query domain_name record_type id) 0 =
      some (⟨id, 256, 1, 0, 0, 0⟩,
        encode_dns_name domain_name ++ toBe16 record_type ++ toBe16 1, 12) := by
  have hid' := fromBe16_split hid
  have hq : build_query domain_name record_type id =
      id / 256 % 256 :: id % 256 :: 1 :: 0 :: 0 :: 1 :: 0 :: 0 :: 0 :: 0 :: 0 :: 0 ::
        (encode_dns_name domain_name ++
          (record_type / 256 % 256 :: record_type % 256 :: 0 :: 1 :: [])) := by
    simp [build_query, DNSHeader.to_bytes, DNSQuestion.to_bytes, toBe16]
  rw [hq]
  simp only [DNSHeader.from_buffer, hid']
  norm_num [fromBe16, toBe16]

/-- Witness for the header/question theorem at `"www.example.com"`, type 1,
id 7. -/
theorem build_query_header_question_witness :
    ((7 : Nat) < 65536 ∧ (1 : Nat) < 65536) ∧
      DNSHeader.from_buffer (build_query wwwExampleCom 1 7) 0 =
        some (⟨7, 256, 1, 0, 0, 0⟩,
          encode_dns_name wwwExampleCom ++ toBe16 1 ++ toBe16 1, 12) :=
  ⟨⟨by decide, by decide⟩,
    build_query_header_question wwwExampleCom 1 7 (by decide) (by decide)⟩

/-- C10: the query body is a deterministic function of the name and the
record type — two queries built with different (random) transaction ids have
the same length and agree on every byte from index 2 onward; only the two id
bytes may differ. -/
theorem build_query_id_only_difference (domain_name : List Nat)
    (record_type id1 id2 : Nat) :
    (build_query domain_name record_type id1).length =
        (build_query domain_name record_type id2).length ∧
      (build_query domain_name record_type id1).drop 2 =
        (build_query domain_name record_type id2).drop 2 := by
  constructor <;> simp [build_query, DNSHeader.to_bytes, toBe16]
